import Mathlib

/-!
Verification of the TaskFlow task-processing system.

The definitions below are shallow embeddings of the Python sources:
`task_queue.py` (Task model, in-memory `TaskQueue` backed by Python's
`heapq`), `sqs_queue.py` (`SQSTaskQueue`), `task_worker.py` (`TaskWorker`),
`file_storage.py` (`FileStorage`), `event_handlers.py` (retry handler),
`load_balancer.py` (`LoadBalancer`) and `api_server.py` (HTTP endpoints).

Machine integers are modelled as `Int`/`Nat`; `uuid4` identifiers and
`datetime.now()` timestamps are modelled by a per-queue counter threaded
through the state; dictionaries are association lists; exceptions are
`Except`.  The `heapq` functions are transcribed from CPython's
`heapq.heappush` / `heapq.heappop` (`_siftdown` / `_siftup`), with the
array as a `List` and the two internal loops written as structural
recursions over the same measure the Python loops decrease.
-/

namespace TaskFlow

/-- `TaskStatus` enum from `task_queue.py`. -/
inductive TaskStatus where
  | pending
  | processing
  | completed
  | failed
deriving DecidableEq, Repr, Inhabited

/-- Task payloads (`Dict[str, Any]`) modelled as string-keyed association
lists with opaque string values. -/
abbrev Payload := List (String × String)

/-- The `Task` pydantic model from `task_queue.py`.  `priority` is a Python
`int` (no range constraint on the model), hence `Int`. -/
structure Task where
  id : String
  name : String
  priority : Int
  payload : Payload
  status : TaskStatus
  created_at : Nat
  updated_at : Nat
deriving DecidableEq, Repr, Inhabited

/-- `Task.__lt__`: comparison used by `heapq`; compares priorities only. -/
def Task.lt (a b : Task) : Bool := a.priority < b.priority

/-- Array indexing `heap[i]` (always in range in the source loops). -/
def nth (l : List Task) (i : Nat) : Task := l.getD i default

/-- Loop of CPython `heapq._siftdown`: bubble `newitem` toward the root,
moving parents down, until the parent is not greater.  Returns the final
array and the position where `newitem` must be written.  `(pos - 1) / 2`
is the source's `parentpos` and `nth heap ((pos - 1) / 2)` its `parent`. -/
def siftdownLoop (newitem : Task) (startpos : Nat) (heap : List Task)
    (pos : Nat) : List Task × Nat :=
  if _h : startpos < pos then
    if Task.lt newitem (nth heap ((pos - 1) / 2)) then
      siftdownLoop newitem startpos
        (heap.set pos (nth heap ((pos - 1) / 2))) ((pos - 1) / 2)
    else
      (heap, pos)
  else
    (heap, pos)
termination_by pos
decreasing_by omega

/-- CPython `heapq._siftdown(heap, startpos, pos)`: `newitem` is read at
`pos` before the loop and written at the final position after it. -/
def siftdown (heap : List Task) (startpos pos : Nat) : List Task :=
  (siftdownLoop (nth heap pos) startpos heap pos).1.set
    (siftdownLoop (nth heap pos) startpos heap pos).2 (nth heap pos)

/-- CPython `heapq.heappush`. -/
def heappush (heap : List Task) (item : Task) : List Task :=
  siftdown (heap ++ [item]) 0 heap.length

/-- Child selection in CPython `heapq._siftup`: `childpos` starts at the
left child `2*pos+1` and moves to `rightpos = 2*pos+2` when the right child
exists and the left child is not smaller. -/
def siftupChild (heap : List Task) (pos : Nat) : Nat :=
  if 2 * pos + 2 < heap.length ∧
      ¬ Task.lt (nth heap (2 * pos + 1)) (nth heap (2 * pos + 2)) then
    2 * pos + 2
  else
    2 * pos + 1

/-- Loop of CPython `heapq._siftup`: move the smaller child up until a leaf
position is reached.  Returns the final array and the leaf position. -/
def siftupLoop (heap : List Task) (pos : Nat) : List Task × Nat :=
  if _h : 2 * pos + 1 < heap.length then
    siftupLoop (heap.set pos (nth heap (siftupChild heap pos)))
      (siftupChild heap pos)
  else
    (heap, pos)
termination_by heap.length - pos
decreasing_by
  simp only [List.length_set, siftupChild]
  split <;> omega

/-- CPython `heapq._siftup(heap, pos)`: read `newitem` at `pos`, sift the
smaller children up to a leaf, place `newitem` at the leaf, then
`_siftdown(heap, pos, leaf)`. -/
def siftup (heap : List Task) (pos : Nat) : List Task :=
  siftdown
    ((siftupLoop heap pos).1.set (siftupLoop heap pos).2 (nth heap pos))
    pos (siftupLoop heap pos).2

/-- CPython `heapq.heappop`: pop the last element; if the heap is still
nonempty, place it at the root and sift up.  `none` models the `IndexError`
on an empty heap (never reached by `TaskQueue.dequeue`, which checks
emptiness first). -/
def heappop (heap : List Task) : Option (Task × List Task) :=
  if heap.isEmpty then none
  else if heap.dropLast.isEmpty then some (nth heap (heap.length - 1), [])
  else some (nth heap.dropLast 0,
    siftup (heap.dropLast.set 0 (nth heap (heap.length - 1))) 0)

/-! ### The in-memory `TaskQueue` (`task_queue.py`) -/

/-- Insert-or-replace on the association list modelling a Python dict. -/
def setKV : List (String × Task) → String → Task → List (String × Task)
  | [], k, v => [(k, v)]
  | (k', v') :: rest, k, v =>
    if k' = k then (k, v) :: rest else (k', v') :: setKV rest k v

/-- State of a `TaskQueue`: the heap array `self._queue`, the dict
`self._tasks`, and a counter standing in for `uuid.uuid4()` ids and
`datetime.now()` timestamps (fresh, strictly increasing). -/
structure QueueState where
  queue : List Task
  tasks : List (String × Task)
  ctr : Nat
deriving DecidableEq, Repr

/-- `TaskQueue.__init__`. -/
def QueueState.init : QueueState := ⟨[], [], 0⟩

/-- `TaskQueue.enqueue(name, priority, payload)`: build a fresh pending
task, push it on the heap, index it, return its id.  No validation of
`name` or `priority` appears in the source. -/
def enqueue (st : QueueState) (name : String) (priority : Int)
    (payload : Payload) : String × QueueState :=
  let task : Task :=
    { id := toString st.ctr, name := name, priority := priority,
      payload := payload, status := .pending,
      created_at := st.ctr, updated_at := st.ctr }
  (task.id,
    { queue := heappush st.queue task,
      tasks := setKV st.tasks task.id task,
      ctr := st.ctr + 1 })

/-- `TaskQueue.dequeue(timeout)`: the empty-queue branch models the timeout
path returning `None`; otherwise pop the heap minimum, mark it
`processing`, bump `updated_at`, and re-index it. -/
def dequeue (st : QueueState) : Option Task × QueueState :=
  match heappop st.queue with
  | none => (none, st)
  | some (t, rest) =>
    let t' := { t with status := .processing, updated_at := st.ctr }
    (some t',
      { queue := rest, tasks := setKV st.tasks t'.id t', ctr := st.ctr + 1 })

/-- `TaskQueue.get_task(task_id)`. -/
def get_task (st : QueueState) (task_id : String) : Option Task :=
  st.tasks.lookup task_id

/-- `TaskQueue.update_task_status(task_id, status)`: unknown id gives
`False`; a task whose status is `completed` or `failed` may only move to
`pending`; any other update is applied, and moving to `pending` re-pushes
the task onto the heap. -/
def update_task_status (st : QueueState) (task_id : String)
    (status : TaskStatus) : Bool × QueueState :=
  match st.tasks.lookup task_id with
  | none => (false, st)
  | some task =>
    if (task.status = .completed ∨ task.status = .failed) ∧
        status ≠ .pending then
      (false, st)
    else
      let task' := { task with status := status, updated_at := st.ctr }
      let st' : QueueState :=
        { st with tasks := setKV st.tasks task_id task', ctr := st.ctr + 1 }
      if status = .pending then
        (true, { st' with queue := heappush st'.queue task' })
      else
        (true, st')

/-- `TaskQueue.get_tasks_by_status(status)`. -/
def get_tasks_by_status (st : QueueState) (status : TaskStatus) : List Task :=
  (st.tasks.map Prod.snd).filter (fun t => t.status = status)

/-- `TaskQueue.size()`: number of heap entries. -/
def size (st : QueueState) : Nat := st.queue.length

/-- One client operation on the in-memory queue. -/
inductive QueueOp where
  | enq (name : String) (priority : Int) (payload : Payload)
  | deq
  | upd (task_id : String) (status : TaskStatus)

/-- Run a sequence of operations from a state, collecting the tasks
returned by the `dequeue` calls in order. -/
def runOps (st : QueueState) : List QueueOp → QueueState × List Task
  | [] => (st, [])
  | .enq n p pl :: ops => runOps (enqueue st n p pl).2 ops
  | .deq :: ops =>
    let r := dequeue st
    let rec' := runOps r.2 ops
    (rec'.1, r.1.toList ++ rec'.2)
  | .upd id s :: ops => runOps (update_task_status st id s).2 ops

/-- Enqueue a batch of `(name, priority, payload)` requests in order. -/
def enqueueAll (st : QueueState) : List (String × Int × Payload) → QueueState
  | [] => st
  | (n, p, pl) :: items => enqueueAll (enqueue st n p pl).2 items

/-- Dequeue repeatedly (with fuel) collecting the returned tasks. -/
def drainAux : Nat → QueueState → List Task
  | 0, _ => []
  | n + 1, st =>
    match (dequeue st).1 with
    | none => []
    | some t => t :: drainAux n (dequeue st).2

/-- Dequeue until the queue is empty, collecting the returned tasks. -/
def drain (st : QueueState) : List Task := drainAux st.queue.length st

/-- Pure-heap analogue of `drain`: pop repeatedly with fuel. -/
def popAllAux : Nat → List Task → List Task
  | 0, _ => []
  | n + 1, h =>
    match heappop h with
    | none => []
    | some (t, h') => t :: popAllAux n h'

/-- The binary-min-heap invariant on the array representation, keyed by
`Task.__lt__`'s comparison (priority only). -/
def heapInv (h : List Task) : Prop :=
  ∀ j, 0 < j → j < h.length →
    (nth h ((j - 1) / 2)).priority ≤ (nth h j).priority

/-- `_siftdown` loop invariant, part A: with `newitem` virtually written at
`pos`, the heap relation holds at every parent-child edge except possibly
the edge into `pos`. -/
def sdA (x : Task) (heap : List Task) (pos : Nat) : Prop :=
  ∀ j, 0 < j → j < heap.length → j ≠ pos →
    (nth (heap.set pos x) ((j - 1) / 2)).priority ≤
      (nth (heap.set pos x) j).priority

/-- `_siftdown` loop invariant, part B: the stale physical value at `pos`
is below the children of `pos`. -/
def sdB (heap : List Task) (pos : Nat) : Prop :=
  ∀ c, c < heap.length → (c = 2 * pos + 1 ∨ c = 2 * pos + 2) →
    (nth heap pos).priority ≤ (nth heap c).priority

/-- `_siftdown` loop invariant, part C: when `pos` has a child, the
physical parent-edge at `pos` also holds. -/
def sdC (heap : List Task) (pos : Nat) : Prop :=
  2 * pos + 1 < heap.length → 0 < pos →
    (nth heap ((pos - 1) / 2)).priority ≤ (nth heap pos).priority

/-- `_siftup` loop invariant, part J: the heap relation holds at every
parent-child edge not touching the hole `pos`. -/
def suJ (heap : List Task) (pos : Nat) : Prop :=
  ∀ j, 0 < j → j < heap.length → j ≠ pos → (j - 1) / 2 ≠ pos →
    (nth heap ((j - 1) / 2)).priority ≤ (nth heap j).priority

/-- `_siftup` loop invariant, part J2: the physical value at the parent of
the hole is below the children of the hole. -/
def suJ2 (heap : List Task) (pos : Nat) : Prop :=
  0 < pos → ∀ c, c < heap.length → (c = 2 * pos + 1 ∨ c = 2 * pos + 2) →
    (nth heap ((pos - 1) / 2)).priority ≤ (nth heap c).priority

/-! ### The SQS queue adapter (`sqs_queue.py`) -/

/-- State of an `SQSTaskQueue`: the bodies of the messages held by the
remote service (in arrival order; SQS does not order by priority), the
local mirror dict `self._tasks`, and the id/timestamp counter. -/
structure SQSState where
  messages : List Task
  mirror : List (String × Task)
  ctr : Nat
deriving DecidableEq, Repr

/-- `SQSTaskQueue.enqueue` (service call succeeds): serialize the task as
the message body, send it, and mirror it locally.  As in the in-memory
variant, no validation of `name` or `priority` appears in the source. -/
def sqs_enqueue (st : SQSState) (name : String) (priority : Int)
    (payload : Payload) : String × SQSState :=
  let task : Task :=
    { id := toString st.ctr, name := name, priority := priority,
      payload := payload, status := .pending,
      created_at := st.ctr, updated_at := st.ctr }
  (task.id,
    { messages := st.messages ++ [task],
      mirror := setKV st.mirror task.id task,
      ctr := st.ctr + 1 })

/-- `SQSTaskQueue.update_task_status`: look the task up in the mirror and
overwrite its status.  The source performs no transition check at all. -/
def sqs_update_task_status (st : SQSState) (task_id : String)
    (status : TaskStatus) : Bool × SQSState :=
  match st.mirror.lookup task_id with
  | none => (false, st)
  | some task =>
    (true,
      { st with
        mirror := setKV st.mirror task_id
          { task with status := status, updated_at := st.ctr },
        ctr := st.ctr + 1 })

/-- `SQSTaskQueue.size()`: `get_queue_attributes` either yields an
approximate message count or raises; both `except` arms return `-1`. -/
def sqs_size (attrResult : Except String Nat) : Int :=
  match attrResult with
  | .ok n => (n : Int)
  | .error _ => -1

/-! ### File storage (`file_storage.py`) -/

/-- Remove a key from an association list. -/
def eraseKV (d : List (String × Task)) (k : String) : List (String × Task) :=
  d.filter (fun kv => kv.1 ≠ k)

/-- State of a `FileStorage`: the task files on disk, keyed by task id
(`_get_task_file_path` maps distinct non-empty ids to distinct paths). -/
structure StorageState where
  files : List (String × Task)
deriving DecidableEq, Repr

namespace FileStorage

/-- `FileStorage.save_task` (no I/O fault): `_get_task_file_path` raises
`ValueError` on an empty id, otherwise the JSON dump atomically replaces
the file for that id. -/
def save_task (fs : StorageState) (task : Task) :
    Except String StorageState :=
  if task.id = "" then .error "ValueError: Task ID cannot be empty"
  else .ok ⟨setKV fs.files task.id task⟩

/-- `FileStorage.load_task`: `ValueError` on an empty id; otherwise the
parsed file contents, or `none` when the file does not exist. -/
def load_task (fs : StorageState) (task_id : String) :
    Except String (Option Task) :=
  if task_id = "" then .error "ValueError: Task ID cannot be empty"
  else .ok (fs.files.lookup task_id)

/-- `FileStorage.delete_task`: `ValueError` on an empty id; otherwise
`unlink(missing_ok=True)` — removing a missing file succeeds — and the
method returns `False` only when the unlink raises
`PermissionError`/`OSError` (modelled by `unlinkFault`). -/
def delete_task (fs : StorageState) (task_id : String)
    (unlinkFault : Bool) : Except String (Bool × StorageState) :=
  if task_id = "" then .error "ValueError: Task ID cannot be empty"
  else if unlinkFault then .ok (false, fs)
  else .ok (true, ⟨eraseKV fs.files task_id⟩)

end FileStorage

/-! ### The worker (`task_worker.py`) -/

/-- One iteration of `TaskWorker._worker_loop` with a processor that
returns a boolean: dequeue with timeout (`none` models the timeout),
process, set the terminal status, bump `updated_at`, save to storage.  An
exception from `save_task` is caught by the loop's `try`/`except`. -/
def worker_iteration (q : QueueState) (fs : StorageState)
    (processor : Task → Bool) : QueueState × StorageState :=
  match (dequeue q).1 with
  | none => ((dequeue q).2, fs)
  | some task =>
    match FileStorage.save_task fs
        { task with
          status := if processor task then .completed else .failed,
          updated_at := (dequeue q).2.ctr } with
    | .ok fs' => ((dequeue q).2, fs')
    | .error _ => ((dequeue q).2, fs)

/-! ### Event handlers (`event_handlers.py`) -/

/-- The fields of a `task_failed` event payload read by
`TaskEventHandlers._handle_task_retry` (each may be absent: the source
uses `.get` with defaults `retry_count = 0`, `max_retries = 3`). -/
structure FailedTaskInfo where
  task_id : Option String
  name : Option String
  priority : Option Int
  payload : Option Payload
  retry_count : Option Nat
  max_retries : Option Nat
  error_message : Option String
  correlation_id : Option String
deriving DecidableEq, Repr

/-- The payload of the `TASK_CREATED` event published by the retry
handler. -/
structure RetryPublish where
  task_id : Option String
  name : Option String
  priority : Option Int
  payload : Option Payload
  retry_count : Nat
  max_retries : Nat
  original_failure : Option String
deriving DecidableEq, Repr

/-- `TaskEventHandlers._handle_task_retry`: if `retry_count < max_retries`
publish one `TASK_CREATED` event carrying `retry_count + 1` (returned as
`some`); otherwise only log the abandonment (`none`). -/
def handle_task_retry (info : FailedTaskInfo) : Option RetryPublish :=
  let retry_count := info.retry_count.getD 0
  let max_retries := info.max_retries.getD 3
  if retry_count < max_retries then
    some { task_id := info.task_id, name := info.name,
           priority := info.priority, payload := info.payload,
           retry_count := retry_count + 1, max_retries := max_retries,
           original_failure := info.error_message }
  else
    none

/-- A retry feedback chain: a sequence of `task_failed` events for one
original task in which every non-final event is answered by a publication
of the handler and the next failure carries the published
`retry_count`/`max_retries`. -/
inductive RetryChain : List FailedTaskInfo → Prop where
  | nil : RetryChain []
  | single (e : FailedTaskInfo) : RetryChain [e]
  | cons (e e' : FailedTaskInfo) (rest : List FailedTaskInfo)
      (out : RetryPublish)
      (hpub : handle_task_retry e = some out)
      (hr : e'.retry_count = some out.retry_count)
      (hm : e'.max_retries = some out.max_retries)
      (hrest : RetryChain (e' :: rest)) :
      RetryChain (e :: e' :: rest)

/-! ### The load balancer (`load_balancer.py`)

`load_balancer.py` does not parse: line 157, inside the
`web.Response(...)` call of `forward_request`, reads
`headers=headers={k: v ...}` — a keyword argument whose value is an
assignment, invalid in every Python version — so importing the module
raises `SyntaxError` and none of its classes or functions ever executes.
The definitions below therefore transcribe the routing logic as the
source text writes it (`get_next_instance` over `itertools.cycle`, the
503 branch of `forward_request`) — the intended behavior, also described
in spec §4.6 — which the running program cannot exhibit.  They are used
only to settle what the claimed behavior would be were the module
importable. -/

/-- Outcome of importing `load_balancer.py`: the parse stops at the
syntax error on line 157 before any definition is made. -/
def load_balancer_import : Except String Unit :=
  .error "SyntaxError: invalid syntax (load_balancer.py, line 157)"

/-- A backend instance as configured in `load_balancer.py` (health fields
omitted: the claims below fix the healthy set). -/
structure ServerInstance where
  host : String
  port : Nat
deriving DecidableEq, Repr

/-- Load-balancer routing state: the `healthy_instances` snapshot backing
`itertools.cycle`, and the cycle position. -/
structure LBState where
  healthy : List ServerInstance
  cursor : Nat
deriving DecidableEq, Repr

/-- `LoadBalancer.get_next_instance` as written in the (non-importing)
source: `None` when `instance_cycle` is `None` (empty healthy list), else
the next element of the cycle. -/
def get_next_instance (st : LBState) : Option ServerInstance × LBState :=
  if h : 0 < st.healthy.length then
    (some (st.healthy.get ⟨st.cursor % st.healthy.length,
        Nat.mod_lt _ h⟩),
      { st with cursor := st.cursor + 1 })
  else
    (none, st)

/-- Outcome of `LoadBalancer.forward_request` as far as routing is
concerned: a local `503` with no backend touched, or a forward to the
selected instance. -/
inductive ForwardResult where
  | noBackend (httpStatus : Nat)
  | forwarded (inst : ServerInstance)
deriving DecidableEq, Repr

/-- `LoadBalancer.forward_request` as written in the (non-importing)
source — the function whose line 157 is the syntax error: with no healthy
instance answer `503` without forwarding; otherwise forward to the
round-robin choice. -/
def forward_request (st : LBState) : ForwardResult × LBState :=
  match get_next_instance st with
  | (none, st') => (.noBackend 503, st')
  | (some inst, st') => (.forwarded inst, st')

/-- `n` consecutive inbound requests through the intended routing. -/
def forwardMany (st : LBState) : Nat → List ForwardResult × LBState
  | 0 => ([], st)
  | n + 1 =>
    let r := forward_request st
    let rest := forwardMany r.2 n
    (r.1 :: rest.1, rest.2)

/-- Number of `i < n` with `(c + i) % k = j`: the requests among `n`
consecutive cycle steps from cursor `c` that land on index `j`. -/
def resCount (c k n j : Nat) : Nat :=
  (List.range n).countP (fun i => (c + i) % k == j)

/-! ### API endpoints (`api_server.py`) -/

/-- `DELETE /tasks/{task_id}` over the default in-memory queue:
`queue.get_task` guards the 404; otherwise the handler calls
`queue.delete_task(task_id)` — a method the in-memory `TaskQueue` does not
define — so Python raises `AttributeError` (surfaced as HTTP 500) before
`storage.delete_task` runs; neither queue nor storage is modified. -/
def api_delete_task (q : QueueState) (fs : StorageState)
    (task_id : String) :
    Except String (QueueState × StorageState × Nat) :=
  match get_task q task_id with
  | none => .ok (q, fs, 404)
  | some _ =>
    .error "AttributeError: TaskQueue object has no attribute delete_task"

/-- `GET /health` response model from `api_server.py`. -/
structure HealthResponse where
  status : String
  queue_size : Int
  worker_running : Bool
deriving DecidableEq, Repr

/-- `GET /health` over the SQS backend: `queue_size` is whatever
`queue.size()` returned, with no further checking. -/
def health_check (sizeResult : Except String Nat) (workerRunning : Bool) :
    HealthResponse :=
  { status := "healthy", queue_size := sqs_size sizeResult,
    worker_running := workerRunning }

/-! ## Theorems

Basic facts about `nth`, `List.set`, append and `dropLast`. -/

theorem length_set (l : List Task) (i : Nat) (v : Task) :
    (l.set i v).length = l.length := List.length_set l i v

theorem nth_set_eq {l : List Task} {i : Nat} (h : i < l.length) (v : Task) :
    nth (l.set i v) i = v := by
  simp [nth, List.getD_eq_getElem?_getD, List.getElem?_set_self', h]

theorem nth_set_ne {i j : Nat} (h : i ≠ j) (l : List Task) (v : Task) :
    nth (l.set i v) j = nth l j := by
  simp [nth, List.getD_eq_getElem?_getD, List.getElem?_set_ne h]

theorem nth_append_lt {l l' : List Task} {j : Nat} (h : j < l.length) :
    nth (l ++ l') j = nth l j := by
  simp [nth, List.getD_eq_getElem?_getD, List.getElem?_append, h]

theorem nth_append_last (l : List Task) (x : Task) :
    nth (l ++ [x]) l.length = x := by
  simp [nth, List.getD_eq_getElem?_getD]

theorem nth_dropLast {l : List Task} {j : Nat} (h : j < l.length - 1) :
    nth l.dropLast j = nth l j := by
  have hlen : j < l.dropLast.length := by simpa using h
  have hl : j < l.length := lt_of_lt_of_le h (Nat.sub_le _ _)
  simp only [nth, List.getD_eq_getElem?_getD, List.getElem?_eq_getElem, hlen, hl,
    Option.getD_some]
  exact List.getElem_dropLast l j hlen

theorem nth_mem {l : List Task} {j : Nat} (h : j < l.length) : nth l j ∈ l := by
  simp only [nth, List.getD_eq_getElem?_getD, List.getElem?_eq_getElem, h,
    Option.getD_some]
  exact List.getElem_mem h

theorem mem_of_mem_set {l : List Task} {i : Nat} {v x : Task}
    (hx : x ∈ l.set i v) : x ∈ l ∨ x = v := by
  rcases List.mem_or_eq_of_mem_set hx with h | h
  · exact Or.inl h
  · exact Or.inr h

theorem mem_of_mem_dropLast {l : List Task} {x : Task}
    (hx : x ∈ l.dropLast) : x ∈ l :=
  List.Sublist.mem hx (List.dropLast_sublist l)

theorem task_lt_true {a b : Task} (h : Task.lt a b = true) :
    a.priority < b.priority := by
  simpa [Task.lt] using h

theorem task_lt_not {a b : Task} (h : ¬ Task.lt a b = true) :
    b.priority ≤ a.priority := by
  simp only [Task.lt, decide_eq_true_eq] at h
  exact le_of_not_lt h

/-! Correctness of `_siftdown`: the loop invariant `sdA ∧ sdB ∧ sdC` is
preserved by a bubble-up step and yields `heapInv` on exit. -/

theorem sdA_elim {x : Task} {heap : List Task} {pos : Nat}
    (hlen : pos < heap.length) (hA : sdA x heap pos) :
    ∀ j, 0 < j → j < heap.length → j ≠ pos →
      (if (j - 1) / 2 = pos then x else nth heap ((j - 1) / 2)).priority ≤
        (nth heap j).priority := by
  intro j h1 h2 h3
  have h := hA j h1 h2 h3
  rw [nth_set_ne (Ne.symm h3)] at h
  by_cases hq : (j - 1) / 2 = pos
  · rw [hq, nth_set_eq hlen] at h
    rw [if_pos hq]
    exact h
  · rw [nth_set_ne (Ne.symm hq)] at h
    rw [if_neg hq]
    exact h

theorem sd_step_A (x : Task) (heap : List Task) (pos : Nat)
    (hlen : pos < heap.length) (h0 : 0 < pos)
    (hlt : x.priority < (nth heap ((pos - 1) / 2)).priority)
    (hA : sdA x heap pos) (hB : sdB heap pos) (hC : sdC heap pos) :
    sdA x (heap.set pos (nth heap ((pos - 1) / 2))) ((pos - 1) / 2) := by
  intro j hj0 hjlen hjpp
  rw [length_set] at hjlen
  have hpp_lt : (pos - 1) / 2 < heap.length := by omega
  have hq_lt : (j - 1) / 2 < heap.length := by omega
  have hW : ∀ i, i < heap.length →
      nth ((heap.set pos (nth heap ((pos - 1) / 2))).set ((pos - 1) / 2) x)
          i =
        if i = (pos - 1) / 2 then x
        else if i = pos then nth heap ((pos - 1) / 2) else nth heap i := by
    intro i hi
    by_cases h1 : i = (pos - 1) / 2
    · subst h1
      rw [nth_set_eq (by rw [length_set]; exact hi), if_pos rfl]
    · rw [nth_set_ne (Ne.symm h1), if_neg h1]
      by_cases h2 : i = pos
      · subst h2
        rw [nth_set_eq hlen, if_pos rfl]
      · rw [nth_set_ne (Ne.symm h2), if_neg h2]
  rw [hW j hjlen, hW _ hq_lt]
  by_cases hjpos : j = pos
  · rw [if_pos (by omega : (j - 1) / 2 = (pos - 1) / 2), if_neg hjpp,
      if_pos hjpos]
    exact le_of_lt hlt
  · rw [if_neg hjpp, if_neg hjpos]
    by_cases hq1 : (j - 1) / 2 = (pos - 1) / 2
    · rw [if_pos hq1]
      have h := sdA_elim hlen hA j hj0 hjlen hjpos
      rw [if_neg (by omega : ¬ (j - 1) / 2 = pos), hq1] at h
      exact le_trans (le_of_lt hlt) h
    · rw [if_neg hq1]
      by_cases hq2 : (j - 1) / 2 = pos
      · rw [if_pos hq2]
        have hj_child : j = 2 * pos + 1 ∨ j = 2 * pos + 2 := by omega
        have hc1 : (nth heap ((pos - 1) / 2)).priority ≤
            (nth heap pos).priority := hC (by omega) h0
        have hc2 : (nth heap pos).priority ≤ (nth heap j).priority :=
          hB j hjlen hj_child
        exact le_trans hc1 hc2
      · rw [if_neg hq2]
        have h := sdA_elim hlen hA j hj0 hjlen hjpos
        rw [if_neg hq2] at h
        exact h

theorem sd_step_B (x : Task) (heap : List Task) (pos : Nat)
    (hlen : pos < heap.length) (h0 : 0 < pos) (hA : sdA x heap pos) :
    sdB (heap.set pos (nth heap ((pos - 1) / 2))) ((pos - 1) / 2) := by
  intro c hclen hc
  rw [length_set] at hclen
  rw [nth_set_ne (by omega : pos ≠ (pos - 1) / 2)]
  by_cases hcpos : c = pos
  · subst hcpos
    rw [nth_set_eq hlen]
  · rw [nth_set_ne (Ne.symm hcpos)]
    have h := sdA_elim hlen hA c (by omega) hclen hcpos
    rw [if_neg (by omega : ¬ (c - 1) / 2 = pos),
      (by omega : (c - 1) / 2 = (pos - 1) / 2)] at h
    exact h

theorem sd_step_C (x : Task) (heap : List Task) (pos : Nat)
    (hlen : pos < heap.length) (h0 : 0 < pos) (hA : sdA x heap pos) :
    sdC (heap.set pos (nth heap ((pos - 1) / 2))) ((pos - 1) / 2) := by
  intro hch hpp0
  rw [length_set] at hch
  rw [nth_set_ne (by omega : pos ≠ ((pos - 1) / 2 - 1) / 2),
    nth_set_ne (by omega : pos ≠ (pos - 1) / 2)]
  have h := sdA_elim hlen hA ((pos - 1) / 2) hpp0 (by omega) (by omega)
  rw [if_neg (by omega : ¬ ((pos - 1) / 2 - 1) / 2 = pos)] at h
  exact h

theorem sd_stop (x : Task) (heap : List Task) (pos : Nat)
    (hlen : pos < heap.length) (_h0 : 0 < pos)
    (hge : (nth heap ((pos - 1) / 2)).priority ≤ x.priority)
    (hA : sdA x heap pos) :
    heapInv (heap.set pos x) := by
  intro j hj0 hjlen
  rw [length_set] at hjlen
  by_cases hjpos : j = pos
  · rw [hjpos, nth_set_eq hlen, nth_set_ne (by omega : pos ≠ (pos - 1) / 2)]
    exact hge
  · exact hA j hj0 hjlen hjpos

theorem sd_zero (x : Task) (heap : List Task) (hA : sdA x heap 0) :
    heapInv (heap.set 0 x) := by
  intro j hj0 hjlen
  rw [length_set] at hjlen
  exact hA j hj0 hjlen (by omega)

theorem siftdownLoop_spec (x : Task) :
    ∀ pos heap, pos < heap.length → sdA x heap pos → sdB heap pos →
      sdC heap pos →
      heapInv ((siftdownLoop x 0 heap pos).1.set
        (siftdownLoop x 0 heap pos).2 x) := by
  intro pos
  induction pos using Nat.strong_induction_on with
  | _ pos IH =>
    intro heap hlen hA hB hC
    rw [siftdownLoop]
    split
    · rename_i h0
      by_cases hcmp : Task.lt x (nth heap ((pos - 1) / 2)) = true
      · rw [if_pos hcmp]
        exact IH ((pos - 1) / 2) (by omega) _ (by rw [length_set]; omega)
          (sd_step_A x heap pos hlen h0 (task_lt_true hcmp) hA hB hC)
          (sd_step_B x heap pos hlen h0 hA)
          (sd_step_C x heap pos hlen h0 hA)
      · rw [if_neg hcmp]
        exact sd_stop x heap pos hlen h0 (task_lt_not hcmp) hA
    · rename_i h0
      have hz : pos = 0 := by omega
      subst hz
      exact sd_zero x heap hA

theorem nth_eq_getElem {l : List Task} {i : Nat} (h : i < l.length) :
    nth l i = l[i] := by
  simp [nth, List.getD_eq_getElem?_getD, List.getElem?_eq_getElem, h]

theorem nth_set_set_ne {p i : Nat} (h : p ≠ i) (l : List Task)
    (a b : Task) : nth ((l.set p a).set p b) i = nth l i := by
  rw [nth_set_ne h, nth_set_ne h]

theorem heapInv_siftdown {heap : List Task} {pos : Nat}
    (hlen : pos < heap.length) (hA : sdA (nth heap pos) heap pos)
    (hB : sdB heap pos) (hC : sdC heap pos) :
    heapInv (siftdown heap 0 pos) :=
  siftdownLoop_spec (nth heap pos) pos heap hlen hA hB hC

/-- Pushing onto a well-formed heap preserves the heap invariant
(`heapq.heappush`). -/
theorem heapInv_heappush {h : List Task} (hh : heapInv h) (x : Task) :
    heapInv (heappush h x) := by
  have hlen : h.length < (h ++ [x]).length := by simp
  unfold heappush
  apply heapInv_siftdown hlen
  · intro j hj0 hjlen hjpos
    have hlen1 : (h ++ [x]).length = h.length + 1 := by simp
    rw [hlen1] at hjlen
    have hj : j < h.length := by omega
    have hqj : (j - 1) / 2 < h.length := by omega
    have hqne : (j - 1) / 2 ≠ h.length := by omega
    rw [nth_set_ne (Ne.symm hjpos), nth_set_ne (Ne.symm hqne),
      nth_append_lt hj, nth_append_lt hqj]
    exact hh j hj0 hj
  · intro c hclen hc
    exfalso
    have hlen1 : (h ++ [x]).length = h.length + 1 := by simp
    rcases hc with rfl | rfl <;> omega
  · intro hch h0
    exfalso
    have hlen1 : (h ++ [x]).length = h.length + 1 := by simp
    omega

/-! Correctness of `_siftup`: the hole moves down along smaller children
(`suJ ∧ suJ2` is preserved) until a leaf, then `_siftdown` restores the
full invariant. -/

theorem siftupChild_lt {heap : List Task} {pos : Nat}
    (h : 2 * pos + 1 < heap.length) : siftupChild heap pos < heap.length := by
  unfold siftupChild
  split
  · rename_i hc
    exact hc.1
  · exact h

theorem siftupChild_gt (heap : List Task) (pos : Nat) :
    pos < siftupChild heap pos := by
  unfold siftupChild
  split <;> omega

theorem siftupChild_or (heap : List Task) (pos : Nat) :
    siftupChild heap pos = 2 * pos + 1 ∨ siftupChild heap pos = 2 * pos + 2 := by
  unfold siftupChild
  split
  · exact Or.inr rfl
  · exact Or.inl rfl

theorem siftupChild_min {heap : List Task} {pos : Nat} :
    ∀ c, c < heap.length → (c = 2 * pos + 1 ∨ c = 2 * pos + 2) →
      (nth heap (siftupChild heap pos)).priority ≤ (nth heap c).priority := by
  intro c hc hcor
  unfold siftupChild
  split
  · rename_i hcond
    rcases hcor with rfl | rfl
    · exact task_lt_not hcond.2
    · exact le_refl _
  · rename_i hcond
    rcases hcor with rfl | rfl
    · exact le_refl _
    · have hlt : Task.lt (nth heap (2 * pos + 1))
          (nth heap (2 * pos + 2)) = true := by
        by_contra hno
        exact hcond ⟨hc, hno⟩
      exact le_of_lt (task_lt_true hlt)

theorem siftupLoop_spec :
    ∀ n heap pos, heap.length - pos = n → pos < heap.length →
      suJ heap pos → suJ2 heap pos →
      (siftupLoop heap pos).1.length = heap.length ∧
      (siftupLoop heap pos).2 < heap.length ∧
      heap.length ≤ 2 * (siftupLoop heap pos).2 + 1 ∧
      suJ (siftupLoop heap pos).1 (siftupLoop heap pos).2 := by
  intro n
  induction n using Nat.strong_induction_on with
  | _ n IH =>
    intro heap pos hn hlen hJ hJ2
    rw [siftupLoop]
    split
    · rename_i hguard
      have hcp_or := siftupChild_or heap pos
      have hcp_lt := siftupChild_lt hguard
      have hcp_gt := siftupChild_gt heap pos
      have hmin := @siftupChild_min heap pos
      set cp := siftupChild heap pos with hcpdef
      have hJ1 : suJ (heap.set pos (nth heap cp)) cp := by
        intro j hj0 hjlen hjne hjpar
        rw [length_set] at hjlen
        by_cases hjpos : j = pos
        · rw [hjpos, nth_set_ne (by omega : pos ≠ (pos - 1) / 2),
            nth_set_eq hlen]
          exact hJ2 (by omega) cp hcp_lt hcp_or
        · by_cases hqpos : (j - 1) / 2 = pos
          · rw [hqpos, nth_set_eq hlen, nth_set_ne (Ne.symm hjpos)]
            exact hmin j hjlen (by omega)
          · rw [nth_set_ne (Ne.symm hqpos), nth_set_ne (Ne.symm hjpos)]
            exact hJ j hj0 hjlen hjpos hqpos
      have hJ21 : suJ2 (heap.set pos (nth heap cp)) cp := by
        intro h0cp c hclen hcor
        rw [length_set] at hclen
        rw [(by omega : (cp - 1) / 2 = pos), nth_set_eq hlen,
          nth_set_ne (by omega : pos ≠ c)]
        have h := hJ c (by omega) hclen (by omega) (by omega)
        rw [(by omega : (c - 1) / 2 = cp)] at h
        exact h
      have hres := IH (heap.length - cp) (by omega)
        (heap.set pos (nth heap cp)) cp (by rw [length_set])
        (by rw [length_set]; exact hcp_lt) hJ1 hJ21
      rw [length_set] at hres
      exact hres
    · rename_i hguard
      exact ⟨rfl, hlen, by omega, hJ⟩

theorem heapInv_siftup {heap : List Task} (hlen : 0 < heap.length)
    (hJ : suJ heap 0) : heapInv (siftup heap 0) := by
  have hJ2 : suJ2 heap 0 := fun h => absurd h (lt_irrefl 0)
  obtain ⟨hlen1, hpos1, hleaf1, hJ1⟩ :=
    siftupLoop_spec (heap.length - 0) heap 0 rfl hlen hJ hJ2
  unfold siftup
  apply heapInv_siftdown
  · rw [length_set, hlen1]
    exact hpos1
  · intro j hj0 hjlen hjne
    rw [length_set, hlen1] at hjlen
    have hq : (j - 1) / 2 ≠ (siftupLoop heap 0).2 := by omega
    rw [nth_set_set_ne (Ne.symm hjne), nth_set_set_ne (Ne.symm hq)]
    exact hJ1 j hj0 (by rw [hlen1]; exact hjlen) hjne hq
  · intro c hclen hcor
    exfalso
    rw [length_set, hlen1] at hclen
    rcases hcor with rfl | rfl <;> omega
  · intro hch h0
    exfalso
    rw [length_set, hlen1] at hch
    omega

/-! Length preservation and membership: the sift loops only rearrange
elements already present in the array. -/

theorem siftdownLoop_basic (x : Task) (s : Nat) :
    ∀ pos heap, pos < heap.length →
      (siftdownLoop x s heap pos).1.length = heap.length ∧
      (∀ y ∈ (siftdownLoop x s heap pos).1, y ∈ heap) := by
  intro pos
  induction pos using Nat.strong_induction_on with
  | _ pos IH =>
    intro heap hlen
    rw [siftdownLoop]
    split
    · rename_i h0
      split
      · rename_i hcmp
        have hres := IH ((pos - 1) / 2) (by omega)
          (heap.set pos (nth heap ((pos - 1) / 2)))
          (by rw [length_set]; omega)
        rw [length_set] at hres
        refine ⟨hres.1, ?_⟩
        intro y hy
        rcases mem_of_mem_set (hres.2 y hy) with hy' | rfl
        · exact hy'
        · exact nth_mem (by omega)
      · exact ⟨rfl, fun y hy => hy⟩
    · exact ⟨rfl, fun y hy => hy⟩

theorem siftdown_basic (heap : List Task) (s pos : Nat)
    (hlen : pos < heap.length) :
    (siftdown heap s pos).length = heap.length ∧
    (∀ y ∈ siftdown heap s pos, y ∈ heap) := by
  obtain ⟨h1, h2⟩ := siftdownLoop_basic (nth heap pos) s pos heap hlen
  unfold siftdown
  refine ⟨by rw [length_set, h1], ?_⟩
  intro y hy
  rcases mem_of_mem_set hy with hy' | rfl
  · exact h2 y hy'
  · exact nth_mem hlen

theorem siftupLoop_basic :
    ∀ n heap pos, heap.length - pos = n → pos < heap.length →
      (siftupLoop heap pos).1.length = heap.length ∧
      (siftupLoop heap pos).2 < heap.length ∧
      (∀ y ∈ (siftupLoop heap pos).1, y ∈ heap) := by
  intro n
  induction n using Nat.strong_induction_on with
  | _ n IH =>
    intro heap pos hn hlen
    rw [siftupLoop]
    split
    · rename_i hguard
      have hcp_lt := siftupChild_lt hguard
      have hcp_gt := siftupChild_gt heap pos
      have hres := IH (heap.length - siftupChild heap pos) (by omega)
        (heap.set pos (nth heap (siftupChild heap pos)))
        (siftupChild heap pos) (by rw [length_set])
        (by rw [length_set]; exact hcp_lt)
      rw [length_set] at hres
      refine ⟨hres.1, hres.2.1, ?_⟩
      intro y hy
      rcases mem_of_mem_set (hres.2.2 y hy) with hy' | rfl
      · exact hy'
      · exact nth_mem hcp_lt
    · exact ⟨rfl, hlen, fun y hy => hy⟩

theorem siftup_basic (heap : List Task) (pos : Nat)
    (hlen : pos < heap.length) :
    (siftup heap pos).length = heap.length ∧
    (∀ y ∈ siftup heap pos, y ∈ heap) := by
  obtain ⟨h1, h2, h3⟩ := siftupLoop_basic (heap.length - pos) heap pos rfl hlen
  unfold siftup
  obtain ⟨g1, g2⟩ := siftdown_basic
    ((siftupLoop heap pos).1.set (siftupLoop heap pos).2 (nth heap pos))
    pos (siftupLoop heap pos).2 (by rw [length_set, h1]; exact h2)
  refine ⟨by rw [g1, length_set, h1], ?_⟩
  intro y hy
  rcases mem_of_mem_set (g2 y hy) with hy' | rfl
  · exact h3 y hy'
  · exact nth_mem hlen

/-- `heappop` returns the root, shortens the heap by one, and keeps only
elements of the original heap. -/
theorem heappop_spec {heap : List Task} {t : Task} {rest : List Task}
    (hpop : heappop heap = some (t, rest)) :
    t = nth heap 0 ∧ t ∈ heap ∧ rest.length = heap.length - 1 ∧
    (∀ x ∈ rest, x ∈ heap) := by
  unfold heappop at hpop
  split at hpop
  · exact absurd hpop (by simp)
  · rename_i hne
    have hlen0 : 0 < heap.length := by
      cases heap with
      | nil => simp at hne
      | cons a l => simp
    split at hpop
    · rename_i hdrop
      have hlen1 : heap.length = 1 := by
        have := List.isEmpty_iff.mp hdrop
        have hh : heap.dropLast.length = 0 := by rw [this]; rfl
        simp at hh
        omega
      obtain ⟨rfl, rfl⟩ : t = nth heap (heap.length - 1) ∧ rest = [] := by
        cases hpop
        exact ⟨rfl, rfl⟩
      rw [hlen1]
      refine ⟨rfl, nth_mem (by omega), by simp [hlen1], by simp⟩
    · rename_i hdrop
      have hlen2 : 2 ≤ heap.length := by
        have : heap.dropLast ≠ [] := by
          intro hc
          exact hdrop (by simp [hc])
        have := List.length_pos.mpr this
        simp at this
        omega
      have hrestlen : 0 < heap.dropLast.length := by simp; omega
      obtain ⟨rfl, rfl⟩ : t = nth heap.dropLast 0 ∧
          rest = siftup (heap.dropLast.set 0 (nth heap (heap.length - 1))) 0 := by
        cases hpop
        exact ⟨rfl, rfl⟩
      obtain ⟨s1, s2⟩ := siftup_basic
        (heap.dropLast.set 0 (nth heap (heap.length - 1))) 0
        (by rw [length_set]; exact hrestlen)
      refine ⟨nth_dropLast (by omega), ?_, ?_, ?_⟩
      · rw [nth_dropLast (by omega)]
        exact nth_mem (by omega)
      · rw [s1, length_set]
        simp
      · intro x hx
        rcases mem_of_mem_set (s2 x hx) with hx' | rfl
        · exact mem_of_mem_dropLast hx'
        · exact nth_mem (by omega)

/-- `heappop` preserves the heap invariant. -/
theorem heappop_inv {heap : List Task} (hh : heapInv heap) {t : Task}
    {rest : List Task} (hpop : heappop heap = some (t, rest)) :
    heapInv rest := by
  unfold heappop at hpop
  split at hpop
  · exact absurd hpop (by simp)
  · rename_i hne
    have hlen0 : 0 < heap.length := by
      cases heap with
      | nil => simp at hne
      | cons a l => simp
    split at hpop
    · obtain ⟨rfl, rfl⟩ : t = nth heap (heap.length - 1) ∧ rest = [] := by
        cases hpop
        exact ⟨rfl, rfl⟩
      intro j hj0 hjl
      simp at hjl
    · rename_i hdrop
      have hlen2 : 2 ≤ heap.length := by
        have : heap.dropLast ≠ [] := by
          intro hc
          exact hdrop (by simp [hc])
        have := List.length_pos.mpr this
        simp at this
        omega
      obtain ⟨rfl, rfl⟩ : t = nth heap.dropLast 0 ∧
          rest = siftup (heap.dropLast.set 0 (nth heap (heap.length - 1))) 0 := by
        cases hpop
        exact ⟨rfl, rfl⟩
      apply heapInv_siftup
      · rw [length_set]
        simp
        omega
      · intro j hj0 hjlen hjne hqne
        rw [length_set] at hjlen
        have hjd : j < heap.length - 1 := by simpa using hjlen
        rw [nth_set_ne (Ne.symm hjne), nth_set_ne (Ne.symm hqne),
          nth_dropLast hjd, nth_dropLast (by omega)]
        exact hh j hj0 (by omega)

/-- In a well-formed heap the root has minimal priority. -/
theorem heapInv_root_min {heap : List Task} (hh : heapInv heap) :
    ∀ j, j < heap.length →
      (nth heap 0).priority ≤ (nth heap j).priority := by
  intro j
  induction j using Nat.strong_induction_on with
  | _ j IH =>
    intro hj
    rcases Nat.eq_zero_or_pos j with rfl | h0
    · exact le_refl _
    · exact le_trans (IH ((j - 1) / 2) (by omega) (by omega)) (hh j h0 hj)

theorem heapInv_min_mem {heap : List Task} (hh : heapInv heap) {x : Task}
    (hx : x ∈ heap) : (nth heap 0).priority ≤ x.priority := by
  obtain ⟨i, hi, hEq⟩ := List.getElem_of_mem hx
  rw [← hEq, ← nth_eq_getElem hi]
  exact heapInv_root_min hh i hi

theorem popAllAux_mem :
    ∀ n heap, ∀ x ∈ popAllAux n heap, x ∈ heap := by
  intro n
  induction n with
  | zero =>
    intro heap x hx
    simp [popAllAux] at hx
  | succ n IH =>
    intro heap x hx
    unfold popAllAux at hx
    rcases hpop : heappop heap with _ | ⟨t, rest⟩
    · rw [hpop] at hx
      simp at hx
    · rw [hpop] at hx
      simp only [List.mem_cons] at hx
      rcases hx with rfl | hx
      · exact (heappop_spec hpop).2.1
      · exact (heappop_spec hpop).2.2.2 x (IH rest x hx)

/-- Popping a well-formed heap repeatedly yields priorities in
non-decreasing order. -/
theorem popAllAux_sorted :
    ∀ n heap, heapInv heap →
      List.Sorted (· ≤ ·) ((popAllAux n heap).map Task.priority) := by
  intro n
  induction n with
  | zero =>
    intro heap _
    simp [popAllAux]
  | succ n IH =>
    intro heap hh
    unfold popAllAux
    rcases hpop : heappop heap with _ | ⟨t, rest⟩
    · simp
    · simp only [List.map_cons, List.sorted_cons]
      constructor
      · intro b hb
        simp only [List.mem_map] at hb
        obtain ⟨y, hy, rfl⟩ := hb
        have hyheap : y ∈ heap :=
          (heappop_spec hpop).2.2.2 y (popAllAux_mem n rest y hy)
        have hmin := heapInv_min_mem hh hyheap
        rw [← (heappop_spec hpop).1] at hmin
        exact hmin
      · exact IH rest (heappop_inv hh hpop)

/-- The dequeue outputs carry exactly the priorities of the successive heap
pops (`dequeue` rewrites `status`/`updated_at` but never `priority`). -/
theorem drainAux_priorities :
    ∀ n st, (drainAux n st).map Task.priority =
      (popAllAux n st.queue).map Task.priority := by
  intro n
  induction n with
  | zero =>
    intro st
    rfl
  | succ n IH =>
    intro st
    unfold drainAux popAllAux dequeue
    rcases hpop : heappop st.queue with _ | ⟨t, rest⟩
    · rfl
    · simp only [List.map_cons]
      rw [IH]

theorem heapInv_nil : heapInv [] := by
  intro j hj0 hjl
  simp at hjl

theorem enqueueAll_inv :
    ∀ items st, heapInv st.queue → heapInv (enqueueAll st items).queue := by
  intro items
  induction items with
  | nil =>
    intro st h
    exact h
  | cons item items IH =>
    intro st h
    exact IH _ (heapInv_heappush h _)

/-- Claim C1 (amended): when every enqueue precedes the dequeues, the
in-memory queue returns tasks in non-decreasing priority order; the
tiebreak among equal priorities is the heap's arbitrary order, not
insertion order. -/
theorem dequeue_outputs_sorted_by_priority
    (items : List (String × Int × Payload)) :
    List.Sorted (· ≤ ·)
      ((drain (enqueueAll QueueState.init items)).map Task.priority) := by
  have hinv : heapInv (enqueueAll QueueState.init items).queue :=
    enqueueAll_inv items QueueState.init heapInv_nil
  unfold drain
  rw [drainAux_priorities]
  exact popAllAux_sorted _ _ hinv

/-- Claim C1 counterexample: enqueue `P` (priority 1) and then `A`, `B`,
`C` (all priority 2) and dequeue four times.  The queue returns
`P, B, A, C` — `B` (inserted after `A`, equal priority) is returned before
`A` — so the dequeue sequence is not sorted by (priority, insertion
order): FIFO within a priority class fails.  (`created_at` carries the
insertion counter.) -/
theorem dequeue_fifo_counterexample :
    ((runOps QueueState.init
        [.enq "P" 1 [], .enq "A" 2 [], .enq "B" 2 [], .enq "C" 2 [],
          .deq, .deq, .deq, .deq]).2.map
        (fun t => (t.name, t.priority, t.created_at)) =
      [("P", 1, 0), ("B", 2, 2), ("A", 2, 1), ("C", 2, 3)]) ∧
    ¬ List.Sorted
      (fun a b : Task => a.priority < b.priority ∨
        (a.priority = b.priority ∧ a.created_at ≤ b.created_at))
      (runOps QueueState.init
        [.enq "P" 1 [], .enq "A" 2 [], .enq "B" 2 [], .enq "C" 2 [],
          .deq, .deq, .deq, .deq]).2 := by
  constructor
  · simp [runOps, enqueue, dequeue, update_task_status, heappush, heappop,
      siftdown, siftup, siftdownLoop, siftupLoop, siftupChild, nth, setKV,
      Task.lt, QueueState.init]
  · simp [runOps, enqueue, dequeue, update_task_status, heappush, heappop,
      siftdown, siftup, siftdownLoop, siftupLoop, siftupChild, nth, setKV,
      Task.lt, QueueState.init, List.Sorted]

/-! Association-list and length facts used by the queue-level claims. -/

theorem lookup_setKV_self (d : List (String × Task)) (k : String)
    (v : Task) : (setKV d k v).lookup k = some v := by
  induction d with
  | nil => simp [setKV, List.lookup]
  | cons kv rest IH =>
    by_cases h : kv.1 = k
    · simp [setKV, h, List.lookup]
    · simp only [setKV]
      rw [if_neg (by simpa using h)]
      simp [List.lookup, beq_false_of_ne (Ne.symm h), IH]

theorem heappush_length (h : List Task) (x : Task) :
    (heappush h x).length = h.length + 1 := by
  unfold heappush
  rw [(siftdown_basic (h ++ [x]) 0 h.length (by simp)).1]
  simp

/-- Claim C2 (code bug): `update_task_status` does not keep the heap
consistent with current statuses.  Enqueue `A`, then set its status to
`completed`: the call returns `True`, the heap still holds the entry for
`A` although its current status is `completed`, and a subsequent `dequeue`
returns the completed task again as `processing`.  Likewise, a
`pending → pending` update pushes a duplicate heap entry. -/
theorem update_status_stale_heap_bug :
    (update_task_status (enqueue QueueState.init "A" 2 []).2
        (enqueue QueueState.init "A" 2 []).1 TaskStatus.completed).1 =
      true ∧
    ((update_task_status (enqueue QueueState.init "A" 2 []).2
        (enqueue QueueState.init "A" 2 []).1
        TaskStatus.completed).2.queue.map (fun t => t.id)) =
      [(enqueue QueueState.init "A" 2 []).1] ∧
    (get_task (update_task_status (enqueue QueueState.init "A" 2 []).2
        (enqueue QueueState.init "A" 2 []).1 TaskStatus.completed).2
        (enqueue QueueState.init "A" 2 []).1).map Task.status =
      some TaskStatus.completed ∧
    ((dequeue (update_task_status (enqueue QueueState.init "A" 2 []).2
        (enqueue QueueState.init "A" 2 []).1
        TaskStatus.completed).2).1).map Task.status =
      some TaskStatus.processing ∧
    (update_task_status (enqueue QueueState.init "A" 2 []).2
        (enqueue QueueState.init "A" 2 []).1
        TaskStatus.pending).2.queue.length = 2 := by
  refine ⟨?_, ?_, ?_, ?_, ?_⟩ <;>
    simp [update_task_status, enqueue, dequeue, get_task, heappush, heappop,
      siftdown, siftup, siftdownLoop, siftupLoop, siftupChild, nth, setKV,
      Task.lt, QueueState.init, List.lookup]

/-- Claim C3 counterexample: on the in-memory queue a pending task may be
set straight to `completed` (not a DAG edge) and — against the claim's
"in particular" — `update_task_status(id, pending)` on a `completed` task
returns `True` and makes the task pending again. -/
theorem update_status_dag_counterexample :
    (update_task_status (enqueue QueueState.init "A" 2 []).2
        (enqueue QueueState.init "A" 2 []).1 TaskStatus.completed).1 =
      true ∧
    (update_task_status
        (update_task_status (enqueue QueueState.init "A" 2 []).2
          (enqueue QueueState.init "A" 2 []).1 TaskStatus.completed).2
        (enqueue QueueState.init "A" 2 []).1 TaskStatus.pending).1 =
      true ∧
    (get_task (update_task_status
        (update_task_status (enqueue QueueState.init "A" 2 []).2
          (enqueue QueueState.init "A" 2 []).1 TaskStatus.completed).2
        (enqueue QueueState.init "A" 2 []).1 TaskStatus.pending).2
        (enqueue QueueState.init "A" 2 []).1).map Task.status =
      some TaskStatus.pending := by
  refine ⟨?_, ?_, ?_⟩ <;>
    simp [update_task_status, enqueue, get_task, heappush, heappop,
      siftdown, siftup, siftdownLoop, siftupLoop, siftupChild, nth, setKV,
      Task.lt, QueueState.init, List.lookup]

/-- Claim C3 (amended): `update_task_status` returns `True` exactly when
the id is known and, for the in-memory queue, the current status is
non-terminal or the new status is `pending` (so `completed → pending`
succeeds); the SQS adapter checks nothing beyond the id. -/
theorem update_status_success_iff :
    (∀ (st : QueueState) (id : String) (s : TaskStatus),
      (update_task_status st id s).1 = true ↔
        ∃ t, st.tasks.lookup id = some t ∧
          ((t.status = .completed ∨ t.status = .failed) → s = .pending)) ∧
    (∀ (st : SQSState) (id : String) (s : TaskStatus),
      (sqs_update_task_status st id s).1 = true ↔
        (st.mirror.lookup id).isSome) := by
  constructor
  · intro st id s
    unfold update_task_status
    rcases h : st.tasks.lookup id with _ | t
    · simp
    · simp only []
      split
      · rename_i hc
        simp only [Bool.false_eq_true, false_iff]
        rintro ⟨t', ht', himp⟩
        obtain rfl : t = t' := by
          injection ht'
        exact hc.2 (himp hc.1)
      · rename_i hc
        rw [apply_ite Prod.fst]
        simp only [ite_self]
        constructor
        · intro _
          refine ⟨t, rfl, fun hAB => ?_⟩
          by_contra hs
          exact hc ⟨hAB, hs⟩
        · intro _
          trivial
  · intro st id s
    unfold sqs_update_task_status
    rcases h : st.mirror.lookup id with _ | t <;> simp [h]

/-- Claim C5 counterexample: `enqueue("", 99, {})` — name of length 0 and
priority far outside `[1, 5]` — succeeds on the queue backend and inserts
the task instead of failing with `InvalidInput`. -/
theorem enqueue_no_validation_counterexample :
    (get_task (enqueue QueueState.init "" 99 []).2
        (enqueue QueueState.init "" 99 []).1).map
      (fun t => (t.name, t.priority)) = some ("", 99) ∧
    size (enqueue QueueState.init "" 99 []).2 = 1 := by
  constructor <;>
    simp [get_task, enqueue, size, heappush, siftdown, siftdownLoop, nth,
      setKV, QueueState.init, List.lookup]

/-- Claim C5 (amended): neither queue backend validates `name` or
`priority`: for every input, `enqueue` inserts a fresh pending task with
exactly the given fields and returns its id, growing the pending structure
by one; it never fails and never blocks.  (Range validation exists only in
the API layer's `CreateTaskRequest` schema.) -/
theorem enqueue_accepts_all_inputs :
    (∀ (st : QueueState) (name : String) (priority : Int)
      (payload : Payload),
      get_task (enqueue st name priority payload).2
          (enqueue st name priority payload).1 =
        some { id := toString st.ctr, name := name, priority := priority,
               payload := payload, status := .pending,
               created_at := st.ctr, updated_at := st.ctr } ∧
      size (enqueue st name priority payload).2 = size st + 1) ∧
    (∀ (st : SQSState) (name : String) (priority : Int)
      (payload : Payload),
      (sqs_enqueue st name priority payload).2.mirror.lookup
          (sqs_enqueue st name priority payload).1 =
        some { id := toString st.ctr, name := name, priority := priority,
               payload := payload, status := .pending,
               created_at := st.ctr, updated_at := st.ctr } ∧
      (sqs_enqueue st name priority payload).2.messages.length =
        st.messages.length + 1) := by
  constructor
  · intro st name priority payload
    constructor
    · unfold get_task enqueue
      exact lookup_setKV_self st.tasks (toString st.ctr) _
    · unfold size enqueue
      exact heappush_length st.queue _
  · intro st name priority payload
    constructor
    · unfold sqs_enqueue
      exact lookup_setKV_self st.mirror (toString st.ctr) _
    · simp [sqs_enqueue]

/-- Claim C6 (code bug): on the default in-memory backend,
`DELETE /tasks/{id}` for a held id reaches `queue.delete_task`, which the
in-memory `TaskQueue` does not define: the request dies with
`AttributeError` (HTTP 500), the task stays in the queue (`size` is still
1, `GET` still finds it), and storage is untouched; only the unknown-id
path works, returning 404. -/
theorem delete_endpoint_attribute_error :
    api_delete_task (enqueue QueueState.init "A" 2 []).2 ⟨[]⟩
        (enqueue QueueState.init "A" 2 []).1 =
      .error "AttributeError: TaskQueue object has no attribute delete_task" ∧
    size (enqueue QueueState.init "A" 2 []).2 = 1 ∧
    get_task (enqueue QueueState.init "A" 2 []).2
        (enqueue QueueState.init "A" 2 []).1 ≠ none ∧
    api_delete_task QueueState.init ⟨[]⟩ "missing" =
      .ok (QueueState.init, ⟨[]⟩, 404) := by
  refine ⟨?_, ?_, ?_, ?_⟩ <;>
    simp [api_delete_task, get_task, enqueue, size, heappush, siftdown,
      siftdownLoop, nth, setKV, QueueState.init, List.lookup]

/-- Claim C4: when the worker dequeues a task and the processor returns a
boolean, the worker stores the task with status `completed` on `true` and
`failed` on `false`, `updated_at` bumped to the save time, and afterwards
`storage.load_task(t.id)` returns a task whose status is terminal. -/
theorem worker_persists_terminal_status
    (q : QueueState) (fs : StorageState) (processor : Task → Bool)
    (t : Task) (hdeq : (dequeue q).1 = some t) (hid : t.id ≠ "") :
    FileStorage.load_task (worker_iteration q fs processor).2 t.id =
      .ok (some { t with
        status := if processor t then .completed else .failed,
        updated_at := (dequeue q).2.ctr }) ∧
    (∀ u, FileStorage.load_task (worker_iteration q fs processor).2 t.id =
      .ok (some u) → u.status = .completed ∨ u.status = .failed) := by
  have hsave : FileStorage.save_task fs
      { t with status := if processor t then .completed else .failed,
               updated_at := (dequeue q).2.ctr } =
      .ok ⟨setKV fs.files t.id
        { t with status := if processor t then .completed else .failed,
                 updated_at := (dequeue q).2.ctr }⟩ := by
    unfold FileStorage.save_task
    rw [if_neg hid]
  have hiter : (worker_iteration q fs processor).2 =
      ⟨setKV fs.files t.id
        { t with status := if processor t then .completed else .failed,
                 updated_at := (dequeue q).2.ctr }⟩ := by
    unfold worker_iteration
    rw [hdeq]
    simp only [hsave]
  have hload : FileStorage.load_task (worker_iteration q fs processor).2
      t.id = .ok (some { t with
        status := if processor t then .completed else .failed,
        updated_at := (dequeue q).2.ctr }) := by
    rw [hiter]
    unfold FileStorage.load_task
    rw [if_neg hid, lookup_setKV_self]
  refine ⟨hload, ?_⟩
  intro u hu
  rw [hload] at hu
  have hu' : u = { t with
      status := if processor t then .completed else .failed,
      updated_at := (dequeue q).2.ctr } := by
    cases hu
    rfl
  rw [hu']
  by_cases hp : processor t
  · left
    simp [hp]
  · right
    simp [hp]

/-- Claim C4 witness: a concrete run — enqueue `A`, dequeue it, process
with a processor returning `false` — after which storage holds the task
with status `failed`. -/
theorem worker_persists_terminal_status_witness :
    (dequeue (enqueue QueueState.init "A" 2 []).2).1 =
      some { id := toString 0, name := "A", priority := 2, payload := [],
             status := .processing, created_at := 0, updated_at := 1 } ∧
    FileStorage.load_task
        (worker_iteration (enqueue QueueState.init "A" 2 []).2 ⟨[]⟩
          (fun _ => false)).2 (toString 0) =
      .ok (some { id := toString 0, name := "A", priority := 2,
                  payload := [], status := .failed, created_at := 0,
                  updated_at := 2 }) := by
  have hdeq : (dequeue (enqueue QueueState.init "A" 2 []).2).1 =
      some { id := toString 0, name := "A", priority := 2, payload := [],
             status := TaskStatus.processing, created_at := 0,
             updated_at := 1 } := by
    simp [dequeue, enqueue, heappop, heappush, siftdown, siftup,
      siftdownLoop, siftupLoop, siftupChild, nth, setKV, Task.lt,
      QueueState.init]
  refine ⟨hdeq, ?_⟩
  have h := (worker_persists_terminal_status
      (enqueue QueueState.init "A" 2 []).2 ⟨[]⟩ (fun _ => false) _ hdeq
      (by decide)).1
  rw [h]
  have hctr : (dequeue (enqueue QueueState.init "A" 2 []).2).2.ctr = 2 := by
    simp [dequeue, enqueue, heappop, heappush, siftdown, siftup,
      siftdownLoop, siftupLoop, siftupChild, nth, setKV, Task.lt,
      QueueState.init]
  rw [hctr]
  simp

theorem handle_task_retry_publishes {e : FailedTaskInfo}
    (hp : (handle_task_retry e).isSome = true) :
    e.retry_count.getD 0 < e.max_retries.getD 3 := by
  unfold handle_task_retry at hp
  by_cases h : e.retry_count.getD 0 < e.max_retries.getD 3
  · exact h
  · rw [if_neg h] at hp
    simp at hp

theorem retry_chain_count_le :
    ∀ l, RetryChain l → ∀ e es, l = e :: es →
      (e :: es).countP (fun x => (handle_task_retry x).isSome) ≤
        e.max_retries.getD 3 - e.retry_count.getD 0 := by
  intro l hl
  induction hl with
  | nil =>
    intro e es h
    simp at h
  | single e0 =>
    intro e es h
    obtain ⟨rfl, rfl⟩ : e0 = e ∧ es = [] := by
      cases h
      exact ⟨rfl, rfl⟩
    by_cases hp : (handle_task_retry e0).isSome = true
    · have hlt := handle_task_retry_publishes hp
      simp only [List.countP_cons, List.countP_nil, hp, if_pos]
      omega
    · simp [List.countP_cons, hp]
  | cons e0 e' rest out hpub hr hm hrest IH =>
    intro e es h
    obtain ⟨rfl, rfl⟩ : e0 = e ∧ es = e' :: rest := by
      cases h
      exact ⟨rfl, rfl⟩
    have hp : (handle_task_retry e0).isSome = true := by
      rw [hpub]
      rfl
    have hlt := handle_task_retry_publishes hp
    have hout : out.retry_count = e0.retry_count.getD 0 + 1 ∧
        out.max_retries = e0.max_retries.getD 3 := by
      unfold handle_task_retry at hpub
      rw [if_pos hlt] at hpub
      cases hpub
      exact ⟨rfl, rfl⟩
    have IH' := IH e' rest rfl
    rw [hr, hm] at IH'
    simp only [Option.getD_some] at IH'
    rw [hout.1, hout.2] at IH'
    rw [List.countP_cons]
    simp only [hp, if_pos]
    omega

/-- Claim C7: on each `task_failed` event the retry handler publishes
exactly one `task_created` carrying `retry_count + 1` if and only if the
event's `retry_count` is strictly below `max_retries`; consequently, along
any retry feedback chain for one original task the number of published
`task_created` events is at most `max_retries`. -/
theorem retry_handler_bound :
    (∀ (info : FailedTaskInfo) (r m : Nat), info.retry_count = some r →
      info.max_retries = some m →
      (((handle_task_retry info).isSome ↔ r < m) ∧
        ∀ out, handle_task_retry info = some out →
          out.retry_count = r + 1 ∧ out.max_retries = m)) ∧
    (∀ (e : FailedTaskInfo) (es : List FailedTaskInfo),
      RetryChain (e :: es) →
      (e :: es).countP (fun x => (handle_task_retry x).isSome) ≤
        e.max_retries.getD 3) := by
  constructor
  · intro info r m hr hm
    unfold handle_task_retry
    rw [hr, hm]
    simp only [Option.getD_some]
    by_cases h : r < m
    · rw [if_pos h]
      refine ⟨by simp [h], ?_⟩
      intro out hout
      cases hout
      exact ⟨rfl, rfl⟩
    · rw [if_neg h]
      refine ⟨by simp [h], ?_⟩
      intro out hout
      exact absurd hout (by simp)
  · intro e es hch
    exact le_trans (retry_chain_count_le _ hch e es rfl) (Nat.sub_le _ _)

/-- Claim C7 witness: a failed event carrying `retry_count = 1`,
`max_retries = 3` is republished (and a one-event chain respects the
bound). -/
theorem retry_handler_bound_witness :
    ((handle_task_retry
        ⟨none, none, none, none, some 1, some 3, none, none⟩).isSome ↔
      1 < 3) ∧
    ([(⟨none, none, none, none, some 1, some 3, none, none⟩ :
        FailedTaskInfo)].countP
      (fun x => (handle_task_retry x).isSome) ≤ 3) := by
  constructor
  · exact (retry_handler_bound.1
      ⟨none, none, none, none, some 1, some 3, none, none⟩ 1 3 rfl rfl).1
  · have h := retry_handler_bound.2
      ⟨none, none, none, none, some 1, some 3, none, none⟩ []
      (RetryChain.single _)
    simpa using h

/-! Round-robin counting: among any `k` consecutive cycle positions each
index is hit exactly once, so over `n` requests every index is hit
`⌊n/k⌋` or `⌈n/k⌉` times. -/

theorem countP_mod_window {k : Nat} (hk : 0 < k) {j : Nat} (hj : j < k)
    (m : Nat) :
    (List.range k).countP (fun i => (m + i) % k == j) = 1 := by
  have hi0lt : (j + (k - m % k)) % k < k := Nat.mod_lt _ hk
  have ha : m % k < k := Nat.mod_lt _ hk
  have hhit : (m + (j + (k - m % k)) % k) % k = j := by
    rw [Nat.add_mod m, Nat.mod_eq_of_lt hi0lt, Nat.add_mod_mod,
      (by omega : m % k + (j + (k - m % k)) = j + k), Nat.add_mod_right,
      Nat.mod_eq_of_lt hj]
  have hcong : ∀ i ∈ List.range k,
      ((m + i) % k == j) = true ↔ (i == (j + (k - m % k)) % k) = true := by
    intro i hi
    rw [List.mem_range] at hi
    rw [beq_iff_eq, beq_iff_eq]
    constructor
    · intro hp
      have h1 : (m + i) % k = (m + (j + (k - m % k)) % k) % k := by
        rw [hp, hhit]
      have h2 : i ≡ (j + (k - m % k)) % k [MOD k] :=
        Nat.ModEq.add_left_cancel' m h1
      have h3 := h2
      unfold Nat.ModEq at h3
      rw [Nat.mod_eq_of_lt hi, Nat.mod_eq_of_lt hi0lt] at h3
      exact h3
    · intro hp
      rw [hp]
      exact hhit
  rw [List.countP_congr hcong]
  exact List.count_eq_one_of_mem (List.nodup_range k)
    (List.mem_range.mpr hi0lt)

theorem resCount_zero (c k j : Nat) : resCount c k 0 j = 0 := rfl

theorem resCount_add_window {k : Nat} (hk : 0 < k) {j : Nat} (hj : j < k)
    (c n : Nat) : resCount c k (n + k) j = resCount c k n j + 1 := by
  unfold resCount
  rw [List.range_add, List.countP_append, List.countP_map]
  congr 1
  have he : ((fun i => (c + i) % k == j) ∘ (n + ·)) =
      (fun i => ((c + n) + i) % k == j) := by
    funext i
    simp only [Function.comp]
    congr 2
    omega
  rw [he, countP_mod_window hk hj (c + n)]

theorem resCount_le_one {k : Nat} (hk : 0 < k) {j : Nat} (hj : j < k)
    {c n : Nat} (hn : n ≤ k) : resCount c k n j ≤ 1 := by
  unfold resCount
  calc (List.range n).countP (fun i => (c + i) % k == j) ≤
      (List.range k).countP (fun i => (c + i) % k == j) :=
        (List.range_sublist.mpr hn).countP_le _
    _ = 1 := countP_mod_window hk hj c

theorem resCount_bounds {k : Nat} (hk : 0 < k) {j : Nat} (hj : j < k) :
    ∀ n c, n / k ≤ resCount c k n j ∧
      resCount c k n j ≤ (n + k - 1) / k := by
  intro n
  induction n using Nat.strong_induction_on with
  | _ n IH =>
    intro c
    by_cases hn : n < k
    · constructor
      · rw [Nat.div_eq_of_lt hn]
        exact Nat.zero_le _
      · rcases Nat.eq_zero_or_pos n with rfl | hpos
        · exact (resCount_zero c k j).trans_le (Nat.zero_le _)
        · have h1 : resCount c k n j ≤ 1 := resCount_le_one hk hj hn.le
          have h2 : 1 ≤ (n + k - 1) / k := by
            rw [Nat.le_div_iff_mul_le hk]
            omega
          omega
    · have hm : n - k < n := by omega
      obtain ⟨IH1, IH2⟩ := IH (n - k) hm c
      have heq0 : resCount c k ((n - k) + k) j =
          resCount c k (n - k) j + 1 := resCount_add_window hk hj c (n - k)
      rw [(by omega : (n - k) + k = n)] at heq0
      have hdiv1 : n / k = (n - k) / k + 1 := by
        have h3 := Nat.add_div_right (n - k) hk
        rw [(by omega : (n - k) + k = n)] at h3
        exact h3
      have hdiv2 : (n + k - 1) / k = ((n - k) + k - 1) / k + 1 := by
        have h3 := Nat.add_div_right ((n - k) + k - 1) hk
        rw [(by omega : (n - k) + k - 1 + k = n + k - 1)] at h3
        exact h3
      constructor
      · rw [hdiv1]
        omega
      · rw [hdiv2]
        omega

theorem ceil_div_le_floor_succ {k : Nat} (hk : 0 < k) (n : Nat) :
    (n + k - 1) / k ≤ n / k + 1 := by
  rcases Nat.eq_zero_or_pos n with rfl | hn
  · have h0 : (0 + k - 1) / k = 0 := Nat.div_eq_of_lt (by omega)
    have h1 : 0 / k = 0 := Nat.zero_div k
    omega
  · have h3 := Nat.add_div_right (n - 1) hk
    rw [(by omega : (n - 1) + k = n + k - 1)] at h3
    have h4 : (n - 1) / k ≤ n / k := Nat.div_le_div_right (by omega)
    omega

theorem forward_request_healthy (healthy : List ServerInstance) (c : Nat)
    (hk : 0 < healthy.length) :
    forward_request ⟨healthy, c⟩ =
      (.forwarded (healthy.get ⟨c % healthy.length, Nat.mod_lt _ hk⟩),
        ⟨healthy, c + 1⟩) := by
  unfold forward_request get_next_instance
  rw [dif_pos hk]

theorem forwardMany_count :
    ∀ (n : Nat) (healthy : List ServerInstance) (c : Nat),
      healthy.Nodup → ∀ (j : Nat) (hj : j < healthy.length),
      (forwardMany ⟨healthy, c⟩ n).1.countP
          (fun r => r == .forwarded (healthy.get ⟨j, hj⟩)) =
        resCount c healthy.length n j := by
  intro n
  induction n with
  | zero =>
    intro healthy c hnd j hj
    rfl
  | succ n IH =>
    intro healthy c hnd j hj
    have hk : 0 < healthy.length := by omega
    simp only [forwardMany]
    rw [forward_request_healthy healthy c hk]
    simp only [List.countP_cons]
    rw [IH healthy (c + 1) hnd j hj]
    have hstep : resCount c healthy.length (n + 1) j =
        resCount (c + 1) healthy.length n j +
          (if c % healthy.length = j then 1 else 0) := by
      unfold resCount
      rw [List.range_succ_eq_map, List.countP_cons, List.countP_map]
      congr 1
      · have he : ((fun i => (c + i) % healthy.length == j) ∘ Nat.succ) =
            (fun i => ((c + 1) + i) % healthy.length == j) := by
          funext i
          simp only [Function.comp]
          congr 2
          omega
        rw [he]
      · simp [beq_iff_eq]
    rw [hstep]
    congr 1
    by_cases hc : c % healthy.length = j
    · have hfin : (⟨c % healthy.length, Nat.mod_lt _ hk⟩ :
          Fin healthy.length) = ⟨j, hj⟩ := Fin.ext hc
      simp [hfin, hc]
    · have hne : healthy.get ⟨c % healthy.length, Nat.mod_lt _ hk⟩ ≠
          healthy.get ⟨j, hj⟩ := by
        intro heq
        have hfin := (List.Nodup.get_inj_iff hnd).mp heq
        apply hc
        simpa using hfin
      simp only [hc, if_false]
      simp [hc]
      simpa using hne

theorem forwardMany_no_healthy (c : Nat) :
    ∀ n, (forwardMany ⟨[], c⟩ n).1 =
        List.replicate n (.noBackend 503) ∧
      (forwardMany ⟨[], c⟩ n).2 = ⟨[], c⟩ := by
  have hreq : forward_request ⟨[], c⟩ = (.noBackend 503, ⟨[], c⟩) := by
    unfold forward_request get_next_instance
    rw [dif_neg (by simp)]
  intro n
  induction n with
  | zero => exact ⟨rfl, rfl⟩
  | succ n IH =>
    simp only [forwardMany, hreq]
    rw [IH.1, IH.2]
    exact ⟨rfl, rfl⟩

/-- For the intended routing (the source text of `forward_request`, never
executed): with a fixed, duplicate-free set of healthy backends, any `n`
consecutive requests are spread round-robin so that the backend at each
position receives either `⌊n/k⌋` or `⌈n/k⌉` of them; with no healthy
backend every request is answered `503` locally without being
forwarded. -/
theorem round_robin_fairness :
    (∀ (st : LBState) (n j : Nat) (hj : j < st.healthy.length),
      st.healthy.Nodup →
      ((forwardMany st n).1.countP
            (fun r => r == .forwarded (st.healthy.get ⟨j, hj⟩)) =
          n / st.healthy.length ∨
        (forwardMany st n).1.countP
            (fun r => r == .forwarded (st.healthy.get ⟨j, hj⟩)) =
          (n + st.healthy.length - 1) / st.healthy.length)) ∧
    (∀ (st : LBState) (n : Nat), st.healthy = [] →
      (forwardMany st n).1 = List.replicate n (.noBackend 503)) := by
  constructor
  · intro st n j hj hnd
    obtain ⟨healthy, c⟩ := st
    dsimp only at hj hnd ⊢
    have hk : 0 < healthy.length := lt_of_le_of_lt (Nat.zero_le j) hj
    have hcount := forwardMany_count n healthy c hnd j hj
    obtain ⟨hlo, hhi⟩ := resCount_bounds hk hj n c
    have hceil := ceil_div_le_floor_succ hk n
    have hfl : n / healthy.length ≤
        (n + healthy.length - 1) / healthy.length :=
      Nat.div_le_div_right (by omega)
    rw [hcount]
    omega
  · intro st n he
    obtain ⟨healthy, c⟩ := st
    subst he
    exact (forwardMany_no_healthy c n).1

/-- Claim C8 (code bug): the load balancer never runs — importing
`load_balancer.py` raises `SyntaxError` at line 157
(`headers=headers={...}` inside `forward_request`), so the program
forwards no request round-robin and answers no `503`.  The claimed
behavior is the evident intent (the routing as the source text writes it,
matching spec §4.6): in that intended routing each healthy backend would
receive `⌊n/k⌋` or `⌈n/k⌉` of `n` consecutive requests and an empty
healthy set would yield local `503`s. -/
theorem round_robin_syntax_error_bug :
    load_balancer_import =
      .error "SyntaxError: invalid syntax (load_balancer.py, line 157)" ∧
    (∀ (st : LBState) (n j : Nat) (hj : j < st.healthy.length),
      st.healthy.Nodup →
      ((forwardMany st n).1.countP
            (fun r => r == .forwarded (st.healthy.get ⟨j, hj⟩)) =
          n / st.healthy.length ∨
        (forwardMany st n).1.countP
            (fun r => r == .forwarded (st.healthy.get ⟨j, hj⟩)) =
          (n + st.healthy.length - 1) / st.healthy.length)) ∧
    (∀ (st : LBState) (n : Nat), st.healthy = [] →
      (forwardMany st n).1 = List.replicate n (.noBackend 503)) := by
  exact ⟨rfl, round_robin_fairness.1, round_robin_fairness.2⟩

/-- Claim C8 witness: the import failure, and — in the intended routing —
two healthy backends with five requests, the first backend receiving
either `⌊5/2⌋` or `⌈5/2⌉` of the forwards. -/
theorem round_robin_syntax_error_bug_witness :
    load_balancer_import =
      .error "SyntaxError: invalid syntax (load_balancer.py, line 157)" ∧
    ((forwardMany ⟨[⟨"localhost", 8001⟩, ⟨"localhost", 8002⟩], 0⟩ 5).1.countP
          (fun r => r == .forwarded (⟨"localhost", 8001⟩ : ServerInstance)) =
        5 / 2 ∨
      (forwardMany ⟨[⟨"localhost", 8001⟩, ⟨"localhost", 8002⟩], 0⟩ 5).1.countP
          (fun r => r == .forwarded (⟨"localhost", 8001⟩ : ServerInstance)) =
        (5 + 2 - 1) / 2) := by
  refine ⟨round_robin_syntax_error_bug.1, ?_⟩
  have h := round_robin_syntax_error_bug.2.1
    ⟨[⟨"localhost", 8001⟩, ⟨"localhost", 8002⟩], 0⟩ 5 0 (by decide)
    (by decide)
  simpa using h

/-- Claim C9: when `get_queue_attributes` raises, `SQSTaskQueue.size`
returns the sentinel `-1` — a negative value — and the health endpoint's
`queue_size` field propagates it unchanged. -/
theorem sqs_size_error_sentinel :
    ∀ (e : String) (w : Bool),
      sqs_size (.error e) = -1 ∧
      sqs_size (.error e) < 0 ∧
      (health_check (.error e) w).queue_size = -1 := by
  intro e w
  refine ⟨rfl, ?_, rfl⟩
  norm_num [sqs_size]

/-- Claim C10 counterexample: for the empty task id,
`_get_task_file_path` raises `ValueError`, so `delete_task("")` raises
instead of returning `True`. -/
theorem delete_task_empty_id_counterexample :
    FileStorage.delete_task ⟨[]⟩ "" false =
      .error "ValueError: Task ID cannot be empty" := rfl

/-- Claim C10 (amended): for every non-empty task id — including ids never
saved — `delete_task` returns `True` when the unlink does not fault
(`unlink(missing_ok=True)` treats a missing file as success, and deletion
is idempotent), and returns `False` exactly when the filesystem unlink
itself fails. -/
theorem delete_task_missing_ok (fs : StorageState) (task_id : String)
    (h : task_id ≠ "") :
    FileStorage.delete_task fs task_id false =
      .ok (true, ⟨eraseKV fs.files task_id⟩) ∧
    FileStorage.delete_task ⟨eraseKV fs.files task_id⟩ task_id false =
      .ok (true, ⟨eraseKV (eraseKV fs.files task_id) task_id⟩) ∧
    FileStorage.delete_task fs task_id true = .ok (false, fs) := by
  unfold FileStorage.delete_task
  simp only [if_neg h]
  exact ⟨rfl, rfl, rfl⟩

/-- Claim C10 witness: deleting a never-saved id from empty storage
returns `True`; with a faulting unlink it returns `False`. -/
theorem delete_task_missing_ok_witness :
    FileStorage.delete_task ⟨[]⟩ "x" false = .ok (true, ⟨[]⟩) ∧
    FileStorage.delete_task ⟨[]⟩ "x" true = .ok (false, ⟨[]⟩) := by
  have h := delete_task_missing_ok ⟨[]⟩ "x" (by decide)
  exact ⟨h.1, h.2.2⟩

end TaskFlow
